import Mathlib

/-
Verification of the trademark-symbol audit pipeline (audit.py).

Shallow embedding conventions:
* Python strings are Lean `String` / `List Char` (Python indexes code points;
  `String.data` is that code-point list).
* The -1 sentinel of `str.find` becomes `Option Nat`.
* The external rendering collaborator (page navigation, DOM extraction,
  screenshot capture) is an explicit input per URL: a `FetchResult` saying
  whether navigation raised, extraction raised, or which candidates were
  extracted, plus a flag saying whether the screenshot call would raise.
* `str.lower` is modelled by ASCII case folding (`Char.toLower`); the
  repository's terms are ASCII words and the symbols ® / ™, which lower
  maps to themselves.
-/

namespace Audit

/-- One mark definition as normalised by `read_marks` (audit.py 67-86):
the `term`, the expected `symbol` and the case-insensitivity flag.  The
`variants`, `policy` and `locales` fields are loaded but never read by the
matching algorithm in `process_url`, so they are omitted from the model. -/
structure Mark where
  term : String
  symbol : String
  case_insensitive : Bool

deriving instance DecidableEq for Mark

/-- One prominent-text candidate returned by `evaluate_prominent_elements`
(audit.py 92-142): its flattened text and its structural path.  The `html`
field is never read by `process_url` and is omitted. -/
structure Candidate where
  text : String
  path : String

deriving instance DecidableEq for Candidate

/-- One finding record, with exactly the eight keys of the dicts appended to
`findings` in `process_url` (audit.py 165-267). -/
structure Finding where
  url : String
  term : String
  issue : String
  expected : String
  found : String
  path : String
  snippet : String
  details : String

deriving instance DecidableEq for Finding

/-- The separator characters between a term and its symbol, exactly the
characters of the Python literal `" \t\r\n .-–—:,"` (audit.py 214):
space, tab, carriage return, newline, non-breaking space, period, hyphen,
en-dash, em-dash, colon, comma. -/
def sepChars : List Char :=
  [' ', '\t', '\r', '\n', ' ', '.', '-', '–', '—', ':', ',']

/-- Membership test `text[j] in " \t\r\n .-–—:,"` (audit.py 214). -/
def isSep (c : Char) : Bool := sepChars.contains c

/-- Python `str.lower` on a code-point list (ASCII folding, see header). -/
def lowerChars (s : List Char) : List Char := s.map Char.toLower

/-- Python `haystack.find(needle)`: the least index at which `needle` occurs
as a contiguous substring, `none` for the -1 sentinel. -/
def strFind (haystack needle : List Char) : Option Nat :=
  if needle.isPrefixOf haystack then some 0
  else
    match haystack with
    | [] => none
    | _ :: rest => (strFind rest needle).map (· + 1)

/-- Function `find_first_term` (audit.py 145-147):
`text.lower().find(term.lower()) if case_insensitive else text.find(term)`. -/
def find_first_term (text term : String) (case_insensitive : Bool) : Option Nat :=
  if case_insensitive then strFind (lowerChars text.data) (lowerChars term.data)
  else strFind text.data term.data

/-- The actual-symbol computation of `process_url` (audit.py 211-217): from
position `endIdx` (just past the matched term), skip separator characters,
then take the single next character.  `[]` models Python's `""` (text ended
or only separators remained); `[c]` models the one-character string. -/
def actual_symbol (text : List Char) (endIdx : Nat) : List Char :=
  match (text.drop endIdx).dropWhile isSep with
  | [] => []
  | c :: _ => [c]

/-- The whitespace characters relevant to Python `str.strip()` here. -/
def isPySpace (c : Char) : Bool :=
  c == ' ' || c == '\t' || c == '\n' || c == '\r' || c == '\x0B' ||
  c == '\x0C' || c == ' '

/-- Python `str.strip()` on a code-point list. -/
def pyStrip (s : List Char) : List Char :=
  ((s.dropWhile isPySpace).reverse.dropWhile isPySpace).reverse

/-- Truncation `text.strip()[:300]` (audit.py 231 and 246). -/
def snippet300 (text : String) : String :=
  String.mk ((pyStrip text.data).take 300)

/-- The dict appended when a term was not matched with an issue in any
candidate (audit.py 256-267). -/
def notFoundFinding (url : String) (m : Mark) : Finding :=
  ⟨url, m.term, "not found in prominent text", m.symbol, "", "", "", ""⟩

/-- The dict appended in the wrong-symbol branch (audit.py 223-234). -/
def wrongSymbolFinding (url : String) (m : Mark) (actual : List Char)
    (c : Candidate) : Finding :=
  ⟨url, m.term, "wrong symbol", m.symbol, String.mk actual, c.path,
    snippet300 c.text, ""⟩

/-- The dict appended in the missing-symbol branch (audit.py 238-249);
`actual_symbol or ""` is `String.mk actual` since `actual = []` models `""`. -/
def missingSymbolFinding (url : String) (m : Mark) (actual : List Char)
    (c : Candidate) : Finding :=
  ⟨url, m.term, "missing symbol", m.symbol, String.mk actual, c.path,
    snippet300 c.text, ""⟩

/-- The dict appended when `page.goto` raises (audit.py 165-176). -/
def navErrorFinding (url msg : String) : Finding :=
  ⟨url, "", "navigation error", "", "", "", "", msg⟩

/-- The dict appended when `evaluate_prominent_elements` raises
(audit.py 182-193). -/
def evalErrorFinding (url msg : String) : Finding :=
  ⟨url, "", "evaluation error", "", "", "", "", msg⟩

/-- The inner candidate loop of `process_url` for one mark (audit.py
204-253): candidates without the term are skipped; on the first candidate
containing it the follower character is classified and the loop breaks.
Returns the findings the loop appended together with the `issue_recorded`
flag (which the wrong-symbol and missing-symbol branches set and the
correct-symbol `pass` branch does not). -/
def loopCandidates (url : String) (m : Mark) : List Candidate → List Finding × Bool
  | [] => ([], false)
  | c :: rest =>
    match find_first_term c.text m.term m.case_insensitive with
    | none => loopCandidates url m rest
    | some idx =>
      let actual := actual_symbol c.text.data (idx + m.term.length)
      if actual = m.symbol.data then
        ([], false)
      else if (actual = ['®'] ∨ actual = ['™']) ∧ actual ≠ m.symbol.data then
        ([wrongSymbolFinding url m actual c], true)
      else
        ([missingSymbolFinding url m actual c], true)

/-- One iteration of the marks loop of `process_url` (audit.py 198-267): run
the candidate loop, then append the not-found record when `issue_recorded`
is still false — which happens both when the term was nowhere found and when
its first occurrence carried the correct symbol, since the correct branch
leaves the flag unset.  Returns this mark's findings and its contribution to
`page_has_issue` (set exactly when `issue_recorded` is). -/
def evalMark (url : String) (cands : List Candidate) (m : Mark) :
    List Finding × Bool :=
  let r := loopCandidates url m cands
  if r.2 then r else (r.1 ++ [notFoundFinding url m], false)

/-- What the rendering collaborator did for one URL: `page.goto` raised,
`evaluate_prominent_elements` raised, or extraction returned candidates. -/
inductive FetchResult where
  | navError (msg : String)
  | evalError (msg : String)
  | ok (candidates : List Candidate)

deriving instance DecidableEq for FetchResult

/-- Everything observable of one `process_url` call: the findings returned,
whether `page.screenshot` was called, and the screenshot error that the bare
`except: pass` caught (audit.py 273-277) — recorded here only to show it
reaches no finding. -/
structure PageResult where
  findings : List Finding
  screenshotAttempted : Bool
  screenshotError : Option String

deriving instance DecidableEq for PageResult

/-- Function `process_url` (audit.py 153-279).  Navigation or evaluation failure
short-circuits to a single page-level finding; otherwise every mark is
evaluated, `page_has_issue` is the disjunction of the marks' flags, and a
screenshot is attempted iff `save_screenshot` and `page_has_issue`.
`screenshot_fails` models whether `page.screenshot` would raise. -/
def process_url (url : String) (marks : List Mark) (save_screenshot : Bool)
    (fetch : FetchResult) (screenshot_fails : Bool) : PageResult :=
  match fetch with
  | .navError msg => ⟨[navErrorFinding url msg], false, none⟩
  | .evalError msg => ⟨[evalErrorFinding url msg], false, none⟩
  | .ok cands =>
    let per := marks.map (evalMark url cands)
    let page_has_issue := per.any (·.2)
    let attempted := save_screenshot && page_has_issue
    ⟨(per.map (·.1)).flatten, attempted,
      if attempted && screenshot_fails then some "screenshot error (ignored)"
      else none⟩

/-- The sequential semantics of the worker loop of `run_audit` (audit.py
308-336): each queued URL is processed exactly once, in order, and its
findings are appended to the shared collection; any failure inside
`process_url` has already become a `Finding`, so the drain continues with
the next URL.  `fetchOf` and `shotFailOf` give each URL's collaborator
behaviour. -/
def run_audit (urls : List String) (marks : List Mark)
    (save_screenshots : Bool) (fetchOf : String → FetchResult)
    (shotFailOf : String → Bool) : List Finding :=
  (urls.map (fun u =>
    (process_url u marks save_screenshots (fetchOf u) (shotFailOf u)).findings)).flatten

/-- Clamp `num_workers = max(1, min(concurrency, total))` (audit.py 334), with the
CLI's `--concurrency` an arbitrary `Int` and `total = len(urls)`. -/
def num_workers (concurrency : Int) (total : Nat) : Int :=
  max 1 (min concurrency (total : Int))

/-! ## Structural lemmas about the candidate loop and the marks loop -/

/-- The candidate loop either records no issue and appends nothing, or
appends exactly one wrong-symbol / missing-symbol finding for this mark. -/
lemma loopCandidates_cases (url : String) (m : Mark) (cands : List Candidate) :
    loopCandidates url m cands = ([], false) ∨
    ∃ f, loopCandidates url m cands = ([f], true) ∧ f.url = url ∧
      f.term = m.term ∧ f.expected = m.symbol ∧
      (f.issue = "wrong symbol" ∨ f.issue = "missing symbol") := by
  induction cands with
  | nil => exact Or.inl rfl
  | cons c rest ih =>
    cases hf : find_first_term c.text m.term m.case_insensitive with
    | none =>
      simp only [loopCandidates, hf]
      exact ih
    | some idx =>
      simp only [loopCandidates, hf]
      by_cases h1 : actual_symbol c.text.data (idx + m.term.length) = m.symbol.data
      · rw [if_pos h1]
        exact Or.inl rfl
      · rw [if_neg h1]
        by_cases h2 : (actual_symbol c.text.data (idx + m.term.length) = ['®'] ∨
            actual_symbol c.text.data (idx + m.term.length) = ['™']) ∧
            actual_symbol c.text.data (idx + m.term.length) ≠ m.symbol.data
        · rw [if_pos h2]
          exact Or.inr ⟨_, rfl, rfl, rfl, rfl, Or.inl rfl⟩
        · rw [if_neg h2]
          exact Or.inr ⟨_, rfl, rfl, rfl, rfl, Or.inr rfl⟩

/-- Each mark contributes exactly one finding: the not-found record with the
flag down, or one wrong-symbol / missing-symbol finding with the flag up. -/
lemma evalMark_cases (url : String) (cands : List Candidate) (m : Mark) :
    evalMark url cands m = ([notFoundFinding url m], false) ∨
    ∃ f, evalMark url cands m = ([f], true) ∧ f.url = url ∧ f.term = m.term ∧
      f.expected = m.symbol ∧
      (f.issue = "wrong symbol" ∨ f.issue = "missing symbol") := by
  rcases loopCandidates_cases url m cands with h | ⟨f, h, hu, ht, he, hi⟩
  · left
    simp [evalMark, h]
  · right
    exact ⟨f, by simp [evalMark, h], hu, ht, he, hi⟩

/-- Unfolding one step of the per-mark findings aggregation of
`process_url`. -/
lemma okFindings_cons (url : String) (cands : List Candidate) (m : Mark)
    (ms : List Mark) :
    ((((m :: ms).map (evalMark url cands)).map (·.1)).flatten)
      = (evalMark url cands m).1
        ++ (((ms.map (evalMark url cands)).map (·.1)).flatten) := rfl

/-- On a successfully extracted page the findings carry the marks' terms,
in configuration order, one finding per mark. -/
lemma okFindings_terms (url : String) (cands : List Candidate) :
    ∀ marks : List Mark,
      ((((marks.map (evalMark url cands)).map (·.1)).flatten).map (·.term))
        = marks.map (·.term)
  | [] => rfl
  | m :: ms => by
    rcases evalMark_cases url cands m with h | ⟨f, h, _, ht, _, _⟩
    · rw [okFindings_cons, h, List.map_append, okFindings_terms url cands ms]
      rfl
    · rw [okFindings_cons, h, List.map_append, okFindings_terms url cands ms]
      simp [ht]

/-- On a successfully extracted page every finding is a term-level finding
for this URL: wrong symbol, missing symbol or not found. -/
lemma okFindings_issues (url : String) (cands : List Candidate) :
    ∀ (marks : List Mark)
      (f : Finding),
      f ∈ (((marks.map (evalMark url cands)).map (·.1)).flatten) →
      f.url = url ∧ (f.issue = "wrong symbol" ∨ f.issue = "missing symbol" ∨
        f.issue = "not found in prominent text")
  | [], f, hf => by simp at hf
  | m :: ms, f, hf => by
    rw [okFindings_cons] at hf
    rcases evalMark_cases url cands m with h | ⟨g, h, hu, _, _, hi⟩ <;>
      rw [h] at hf <;>
      rcases List.mem_append.mp hf with hf | hf
    · rcases List.mem_singleton.mp hf with rfl
      exact ⟨rfl, Or.inr (Or.inr rfl)⟩
    · exact okFindings_issues url cands ms f hf
    · rcases List.mem_singleton.mp hf with rfl
      exact ⟨hu, hi.imp id Or.inl⟩
    · exact okFindings_issues url cands ms f hf

/-- A wrong-symbol or missing-symbol finding among a page's findings forces
the `page_has_issue` flag. -/
lemma okFindings_flag (url : String) (cands : List Candidate) :
    ∀ (marks : List Mark) (f : Finding),
      f ∈ (((marks.map (evalMark url cands)).map (·.1)).flatten) →
      (f.issue = "wrong symbol" ∨ f.issue = "missing symbol") →
      (marks.map (evalMark url cands)).any (·.2) = true
  | [], f, hf, _ => by simp at hf
  | m :: ms, f, hf, hiss => by
    rw [okFindings_cons] at hf
    rcases evalMark_cases url cands m with h | ⟨g, h, _, _, _, _⟩
    · rw [h] at hf
      rcases List.mem_append.mp hf with hf | hf
      · rcases List.mem_singleton.mp hf with rfl
        rcases hiss with hiss | hiss <;> simp [notFoundFinding] at hiss
      · simp [List.any_cons, okFindings_flag url cands ms f hf hiss]
    · simp [List.any_cons, h]

/-- The candidate loop appends nothing and leaves the flag down when no
candidate contains the term. -/
lemma loopCandidates_of_none (url : String) (m : Mark) :
    ∀ cands : List Candidate,
      (∀ c ∈ cands, find_first_term c.text m.term m.case_insensitive = none) →
      loopCandidates url m cands = ([], false)
  | [], _ => rfl
  | c :: rest, h => by
    simp only [loopCandidates, h c (List.mem_cons_self c rest)]
    exact loopCandidates_of_none url m rest fun c' hc' => h c' (List.mem_cons_of_mem c hc')

/-! ## The claims -/

/-- Claim C1, the intended behaviour versus the code: a page whose single
candidate reads "Acme® blenders" carries the mark "Acme" expecting "®"
with the correct symbol immediately following, yet `process_url` still
emits a finding for that term — the record built in the not-found branch,
because the correct branch of the candidate loop never sets
`issue_recorded` (audit.py 219-221 versus 255-267).  The claim (and the
spec's "no finding emitted" / "Acme® blenders → no finding") say that no
finding at all is produced here. -/
theorem C1_correct_symbol_still_emits_finding :
    (process_url "https://example.com/a" [⟨"Acme", "®", true⟩] false
        (.ok [⟨"Acme® blenders", "main > h1"⟩]) false).findings
      = [⟨"https://example.com/a", "Acme", "not found in prominent text",
          "®", "", "", "", ""⟩] := by decide

/-- Claim C2, counterexample: a page whose only finding is a not-found
finding (an issue other than "correct") with screenshots enabled attempts
no screenshot, because `page_has_issue` is set only in the wrong-symbol and
missing-symbol branches (audit.py 235, 251, 269). -/
theorem C2_counterexample_not_found_skips_screenshot :
    (process_url "https://example.com/b" [⟨"Acme", "®", true⟩] true
        (.ok [⟨"Our blenders are great", "main > p"⟩]) false).findings ≠ []
    ∧ (∀ f ∈ (process_url "https://example.com/b" [⟨"Acme", "®", true⟩] true
        (.ok [⟨"Our blenders are great", "main > p"⟩]) false).findings,
        f.issue ≠ "correct")
    ∧ (process_url "https://example.com/b" [⟨"Acme", "®", true⟩] true
        (.ok [⟨"Our blenders are great", "main > p"⟩]) false).screenshotAttempted
      = false := by decide

/-- Claim C2 as amended: on an extracted page with screenshots enabled, if
some wrong-symbol or missing-symbol finding was produced then the full-page
screenshot capture is attempted; and a failing capture is swallowed — the
findings are identical whether or not the capture fails, and no page-level
error finding (navigation or evaluation) ever appears on the evaluated
path. -/
theorem C2_flagged_page_screenshot_best_effort (url : String)
    (marks : List Mark) (cands : List Candidate) (sf sf' : Bool) :
    ((∃ f ∈ (process_url url marks true (.ok cands) sf).findings,
        f.issue = "wrong symbol" ∨ f.issue = "missing symbol") →
      (process_url url marks true (.ok cands) sf).screenshotAttempted = true)
    ∧ (process_url url marks true (.ok cands) sf).findings
        = (process_url url marks true (.ok cands) sf').findings
    ∧ ∀ f ∈ (process_url url marks true (.ok cands) sf).findings,
        f.issue ≠ "navigation error" ∧ f.issue ≠ "evaluation error" := by
  refine ⟨?_, rfl, ?_⟩
  · rintro ⟨f, hf, hiss⟩
    show (true && (marks.map (evalMark url cands)).any (·.2)) = true
    rw [Bool.true_and]
    exact okFindings_flag url cands marks f hf hiss
  · intro f hf
    rcases (okFindings_issues url cands marks f hf).2 with h | h | h <;>
      rw [h] <;> exact ⟨by decide, by decide⟩

/-- Claim C3: each URL yields either exactly one page-level error finding
(navigation or evaluation, with empty term) and no term findings, or
exactly one finding per configured mark (the findings' terms are the marks'
terms, in order) and no page-level error finding. -/
theorem C3_one_error_or_one_finding_per_term (url : String)
    (marks : List Mark) (save sf : Bool) (fetch : FetchResult) :
    (∃ f, (process_url url marks save fetch sf).findings = [f]
        ∧ f.term = ""
        ∧ (f.issue = "navigation error" ∨ f.issue = "evaluation error"))
    ∨ ((((process_url url marks save fetch sf).findings.map (·.term))
          = marks.map (·.term))
        ∧ ∀ f ∈ (process_url url marks save fetch sf).findings,
            f.issue = "wrong symbol" ∨ f.issue = "missing symbol" ∨
            f.issue = "not found in prominent text") := by
  cases fetch with
  | navError msg => exact Or.inl ⟨navErrorFinding url msg, rfl, rfl, Or.inl rfl⟩
  | evalError msg => exact Or.inl ⟨evalErrorFinding url msg, rfl, rfl, Or.inr rfl⟩
  | ok cands =>
    exact Or.inr ⟨okFindings_terms url cands marks,
      fun f hf => (okFindings_issues url cands marks f hf).2⟩

/-- Claim C4: when the term occurs in no candidate's text, the mark's
evaluation produces exactly one not-found finding, with empty path and
empty snippet (and empty found), and does not set the page-issue flag.
`process_url` emits exactly this list for the mark (audit.py 203-267). -/
theorem C4_not_found_single_finding (url : String) (cands : List Candidate)
    (m : Mark)
    (h : ∀ c ∈ cands, find_first_term c.text m.term m.case_insensitive = none) :
    evalMark url cands m
      = ([⟨url, m.term, "not found in prominent text", m.symbol,
          "", "", "", ""⟩], false) := by
  show evalMark url cands m = ([notFoundFinding url m], false)
  rw [evalMark, loopCandidates_of_none url m cands h]
  rfl

/-- Claim C4, witness at a concrete page: the term "Acme" absent from the
only candidate yields the single not-found finding. -/
theorem C4_witness :
    evalMark "https://example.com/c" [⟨"Our blenders", "main > h1"⟩]
        ⟨"Acme", "®", true⟩
      = ([⟨"https://example.com/c", "Acme", "not found in prominent text",
          "®", "", "", "", ""⟩], false) :=
  C4_not_found_single_finding "https://example.com/c"
    [⟨"Our blenders", "main > h1"⟩] ⟨"Acme", "®", true⟩ (by decide)

/-- Claim C5: on the candidate where the term's first occurrence is
evaluated, a follower that is one of the two recognised glyphs but not the
expected symbol yields exactly one wrong-symbol finding whose `found` is
that glyph; any other non-matching follower (absent or an ordinary
character) yields exactly one missing-symbol finding whose `found` is that
character, or empty when no character follows.  Stated on the mark
evaluation of `process_url` with the occurrence in the first candidate. -/
theorem C5_wrong_symbol_and_missing_symbol (url : String) (m : Mark)
    (c : Candidate) (rest : List Candidate) (idx : Nat)
    (hfind : find_first_term c.text m.term m.case_insensitive = some idx) :
    (((actual_symbol c.text.data (idx + m.term.length) = ['®'] ∨
        actual_symbol c.text.data (idx + m.term.length) = ['™']) →
      actual_symbol c.text.data (idx + m.term.length) ≠ m.symbol.data →
      evalMark url (c :: rest) m
        = ([⟨url, m.term, "wrong symbol", m.symbol,
            String.mk (actual_symbol c.text.data (idx + m.term.length)),
            c.path, snippet300 c.text, ""⟩], true)))
    ∧ ((¬(actual_symbol c.text.data (idx + m.term.length) = ['®'] ∨
          actual_symbol c.text.data (idx + m.term.length) = ['™'])) →
        actual_symbol c.text.data (idx + m.term.length) ≠ m.symbol.data →
        evalMark url (c :: rest) m
          = ([⟨url, m.term, "missing symbol", m.symbol,
              String.mk (actual_symbol c.text.data (idx + m.term.length)),
              c.path, snippet300 c.text, ""⟩], true)) := by
  constructor
  · intro hglyph hne
    have h2 : (actual_symbol c.text.data (idx + m.term.length) = ['®'] ∨
        actual_symbol c.text.data (idx + m.term.length) = ['™']) ∧
        actual_symbol c.text.data (idx + m.term.length) ≠ m.symbol.data :=
      ⟨hglyph, hne⟩
    have hloop : loopCandidates url m (c :: rest)
        = ([wrongSymbolFinding url m
            (actual_symbol c.text.data (idx + m.term.length)) c], true) := by
      simp only [loopCandidates, hfind, if_neg hne, if_pos h2]
    show evalMark url (c :: rest) m
      = ([wrongSymbolFinding url m
          (actual_symbol c.text.data (idx + m.term.length)) c], true)
    rw [evalMark, hloop]
    rfl
  · intro hglyph hne
    have h2 : ¬((actual_symbol c.text.data (idx + m.term.length) = ['®'] ∨
        actual_symbol c.text.data (idx + m.term.length) = ['™']) ∧
        actual_symbol c.text.data (idx + m.term.length) ≠ m.symbol.data) :=
      fun hh => hglyph hh.1
    have hloop : loopCandidates url m (c :: rest)
        = ([missingSymbolFinding url m
            (actual_symbol c.text.data (idx + m.term.length)) c], true) := by
      simp only [loopCandidates, hfind, if_neg hne, if_neg h2]
    show evalMark url (c :: rest) m
      = ([missingSymbolFinding url m
          (actual_symbol c.text.data (idx + m.term.length)) c], true)
    rw [evalMark, hloop]
    rfl

/-- Claim C5, witness: "Acme™ blenders" against expected "®" yields the
single wrong-symbol finding with found "™". -/
theorem C5_witness :
    evalMark "https://example.com/d" [⟨"Acme™ blenders", "main > h1"⟩]
        ⟨"Acme", "®", true⟩
      = ([⟨"https://example.com/d", "Acme", "wrong symbol", "®", "™",
          "main > h1", "Acme™ blenders", ""⟩], true) :=
  ((C5_wrong_symbol_and_missing_symbol "https://example.com/d"
      ⟨"Acme", "®", true⟩ ⟨"Acme™ blenders", "main > h1"⟩ [] 0
      (by decide)).1 (by decide) (by decide)).trans (by decide)

/-- The candidate loop ignores candidates that do not contain the term. -/
lemma loopCandidates_append_of_none (url : String) (m : Mark) :
    ∀ (pre l : List Candidate),
      (∀ c' ∈ pre, find_first_term c'.text m.term m.case_insensitive = none) →
      loopCandidates url m (pre ++ l) = loopCandidates url m l
  | [], _, _ => rfl
  | c :: pre, l, h => by
    simp only [List.cons_append, loopCandidates, h c (List.mem_cons_self c pre)]
    exact loopCandidates_append_of_none url m pre l
      fun c' hc' => h c' (List.mem_cons_of_mem c hc')

/-- Once a candidate contains the term, the candidates after it play no
part in the loop's result. -/
lemma loopCandidates_found_irrel (url : String) (m : Mark) (c : Candidate)
    (idx : Nat) (rest rest' : List Candidate)
    (hc : find_first_term c.text m.term m.case_insensitive = some idx) :
    loopCandidates url m (c :: rest) = loopCandidates url m (c :: rest') := by
  simp only [loopCandidates, hc]

/-- Claim C7: per term, only the first occurrence in the first candidate
containing the term is evaluated — candidates before it (which lack the
term) are skipped and candidates after it are never searched, so the mark's
entire evaluation equals its evaluation against that single candidate,
whatever occurrences (even incorrect ones) the later candidates hold. -/
theorem C7_first_prominent_occurrence_only (url : String) (m : Mark)
    (pre post : List Candidate) (c : Candidate) (idx : Nat)
    (hpre : ∀ c' ∈ pre, find_first_term c'.text m.term m.case_insensitive = none)
    (hc : find_first_term c.text m.term m.case_insensitive = some idx) :
    evalMark url (pre ++ c :: post) m = evalMark url [c] m := by
  rw [evalMark, evalMark, loopCandidates_append_of_none url m pre (c :: post) hpre,
    loopCandidates_found_irrel url m c idx post [] hc]

/-- Claim C7, witness: the first candidate lacks the term, the second has
it with the correct symbol, the third holds an incorrect occurrence — the
evaluation equals that of the second candidate alone (so the incorrect
later occurrence yields no finding). -/
theorem C7_witness :
    evalMark "https://example.com/e"
        ([⟨"no term here", "main > h2"⟩]
          ++ ⟨"Acme® blenders", "main > h1"⟩ :: [⟨"Acme with no symbol", "main > p"⟩])
        ⟨"Acme", "®", true⟩
      = evalMark "https://example.com/e" [⟨"Acme® blenders", "main > h1"⟩]
        ⟨"Acme", "®", true⟩ :=
  C7_first_prominent_occurrence_only "https://example.com/e"
    ⟨"Acme", "®", true⟩ [⟨"no term here", "main > h2"⟩]
    [⟨"Acme with no symbol", "main > p"⟩] ⟨"Acme® blenders", "main > h1"⟩ 0
    (by decide) (by decide)

/-- Claim C8: when navigation for a URL fails, that URL contributes exactly
one navigation-error finding carrying the exception text in `details` and
with empty term (so zero term findings), and the run is simply the
concatenation of the findings before it, that single finding, and the
findings of every remaining URL — the failure never aborts the batch. -/
theorem C8_navigation_error_isolated (pre post : List String) (u : String)
    (marks : List Mark) (save : Bool) (fetchOf : String → FetchResult)
    (shotFailOf : String → Bool) (msg : String)
    (h : fetchOf u = .navError msg) :
    (process_url u marks save (fetchOf u) (shotFailOf u)).findings
      = [⟨u, "", "navigation error", "", "", "", "", msg⟩]
    ∧ run_audit (pre ++ u :: post) marks save fetchOf shotFailOf
      = run_audit pre marks save fetchOf shotFailOf
        ++ [⟨u, "", "navigation error", "", "", "", "", msg⟩]
        ++ run_audit post marks save fetchOf shotFailOf := by
  have h1 : (process_url u marks save (fetchOf u) (shotFailOf u)).findings
      = [navErrorFinding u msg] := by rw [h]; rfl
  refine ⟨h1, ?_⟩
  simp only [run_audit, List.map_append, List.flatten_append, List.map_cons,
    List.flatten_cons, h1]
  rw [List.append_assoc]
  rfl

/-- Claim C8, witness: in a three-URL batch whose middle URL times out, the
run is the first URL's findings, then the single navigation-error finding,
then the last URL's findings. -/
theorem C8_witness :
    run_audit (["https://a"] ++ "https://bad" :: ["https://c"])
        [⟨"Acme", "®", true⟩] false
        (fun v => if v = "https://bad"
          then .navError "Timeout 15000ms exceeded" else .ok [])
        (fun _ => false)
      = run_audit ["https://a"] [⟨"Acme", "®", true⟩] false
          (fun v => if v = "https://bad"
            then .navError "Timeout 15000ms exceeded" else .ok [])
          (fun _ => false)
        ++ [⟨"https://bad", "", "navigation error", "", "", "", "",
            "Timeout 15000ms exceeded"⟩]
        ++ run_audit ["https://c"] [⟨"Acme", "®", true⟩] false
          (fun v => if v = "https://bad"
            then .navError "Timeout 15000ms exceeded" else .ok [])
          (fun _ => false) :=
  (C8_navigation_error_isolated ["https://a"] ["https://c"] "https://bad"
    [⟨"Acme", "®", true⟩] false
    (fun v => if v = "https://bad"
      then .navError "Timeout 15000ms exceeded" else .ok [])
    (fun _ => false) "Timeout 15000ms exceeded" (by decide)).2

/-- Claim C9, counterexample: with an empty URL list (total = 0) the code
starts `max(1, min(4, 0)) = 1` worker, which exceeds the number of URLs, so
"at most the number of URLs" fails for every URL list. -/
theorem C9_counterexample_empty_url_list :
    num_workers 4 0 = 1 ∧ ¬(num_workers 4 0 ≤ (0 : Int)) := by decide

/-- Claim C9 as amended: the number of workers started is always at least
1, and whenever the URL list is non-empty it is at most the number of
URLs. -/
theorem C9_workers_clamped (concurrency : Int) (total : Nat) :
    1 ≤ num_workers concurrency total ∧
    (1 ≤ total → num_workers concurrency total ≤ (total : Int)) := by
  refine ⟨le_max_left 1 _, fun h => ?_⟩
  have h' : (1 : Int) ≤ (total : Int) := by exact_mod_cast h
  exact max_le h' (min_le_right _ _)

/-- The actual symbol is empty exactly when everything after the matched
term is a separator (or nothing follows at all). -/
lemma actual_symbol_eq_nil_iff (text : List Char) (e : Nat) :
    actual_symbol text e = [] ↔ ∀ ch ∈ text.drop e, isSep ch = true := by
  constructor
  · intro h
    cases hd : (text.drop e).dropWhile isSep with
    | nil => exact List.dropWhile_eq_nil_iff.mp hd
    | cons a l =>
      rw [actual_symbol, hd] at h
      exact absurd h (by simp)
  · intro h
    rw [actual_symbol, List.dropWhile_eq_nil_iff.mpr h]

/-- Claim C10: an empty expected symbol does not disable the check.  With
`symbol = ""`, a found first occurrence is treated as correct (no issue
recorded, so only the spurious not-found record with the page flag down)
exactly when nothing but separator characters follows it to the end of the
candidate's text; a following ® or ™ yields a wrong-symbol finding with
that glyph as `found`, and any other following character yields a
missing-symbol finding. -/
theorem C10_empty_expected_symbol_still_checked (url : String) (m : Mark)
    (c : Candidate) (rest : List Candidate) (idx : Nat)
    (hsym : m.symbol = "")
    (hfind : find_first_term c.text m.term m.case_insensitive = some idx) :
    (actual_symbol c.text.data (idx + m.term.length) = []
       ↔ ∀ ch ∈ c.text.data.drop (idx + m.term.length), isSep ch = true)
    ∧ (actual_symbol c.text.data (idx + m.term.length) = [] →
        evalMark url (c :: rest) m = ([notFoundFinding url m], false))
    ∧ (∀ g, (g = '®' ∨ g = '™') →
        actual_symbol c.text.data (idx + m.term.length) = [g] →
        evalMark url (c :: rest) m
          = ([wrongSymbolFinding url m [g] c], true))
    ∧ (∀ ch, actual_symbol c.text.data (idx + m.term.length) = [ch] →
        ¬(ch = '®' ∨ ch = '™') →
        evalMark url (c :: rest) m
          = ([missingSymbolFinding url m [ch] c], true)) := by
  have hs : m.symbol.data = [] := by rw [hsym]
  refine ⟨actual_symbol_eq_nil_iff c.text.data (idx + m.term.length), ?_, ?_, ?_⟩
  · intro ha
    have hloop : loopCandidates url m (c :: rest) = ([], false) := by
      simp only [loopCandidates, hfind, if_pos (ha.trans hs.symm)]
    rw [evalMark, hloop]
    rfl
  · intro g hg ha
    have hne : actual_symbol c.text.data (idx + m.term.length) ≠ m.symbol.data := by
      rw [ha, hs]
      simp
    have h2 : (actual_symbol c.text.data (idx + m.term.length) = ['®'] ∨
        actual_symbol c.text.data (idx + m.term.length) = ['™']) ∧
        actual_symbol c.text.data (idx + m.term.length) ≠ m.symbol.data := by
      refine ⟨?_, hne⟩
      rcases hg with rfl | rfl
      · exact Or.inl ha
      · exact Or.inr ha
    have hloop : loopCandidates url m (c :: rest)
        = ([wrongSymbolFinding url m
            (actual_symbol c.text.data (idx + m.term.length)) c], true) := by
      simp only [loopCandidates, hfind, if_neg hne, if_pos h2]
    rw [evalMark, hloop, ha]
    rfl
  · intro ch ha hch
    have hne : actual_symbol c.text.data (idx + m.term.length) ≠ m.symbol.data := by
      rw [ha, hs]
      simp
    have hglyph : ¬(actual_symbol c.text.data (idx + m.term.length) = ['®'] ∨
        actual_symbol c.text.data (idx + m.term.length) = ['™']) := by
      rw [ha]
      simp only [List.cons.injEq, and_true]
      exact hch
    have h2 : ¬((actual_symbol c.text.data (idx + m.term.length) = ['®'] ∨
        actual_symbol c.text.data (idx + m.term.length) = ['™']) ∧
        actual_symbol c.text.data (idx + m.term.length) ≠ m.symbol.data) :=
      fun hh => hglyph hh.1
    have hloop : loopCandidates url m (c :: rest)
        = ([missingSymbolFinding url m
            (actual_symbol c.text.data (idx + m.term.length)) c], true) := by
      simp only [loopCandidates, hfind, if_neg hne, if_neg h2]
    rw [evalMark, hloop, ha]
    rfl

/-- Claim C10, witness: the term "Acme" with empty expected symbol and
candidate "Acme ™ blender" yields the single wrong-symbol finding with
found "™" — symbol checking is live despite the empty expectation. -/
theorem C10_witness :
    evalMark "https://example.com/f" [⟨"Acme ™ blender", "main > h1"⟩]
        ⟨"Acme", "", true⟩
      = ([⟨"https://example.com/f", "Acme", "wrong symbol", "", "™",
          "main > h1", "Acme ™ blender", ""⟩], true) :=
  ((C10_empty_expected_symbol_still_checked "https://example.com/f"
      ⟨"Acme", "", true⟩ ⟨"Acme ™ blender", "main > h1"⟩ [] 0 rfl
      (by decide)).2.2.1 '™' (Or.inr rfl) (by decide)).trans (by decide)

/-- The first character that `dropWhile isSep` keeps is not a separator. -/
lemma isSep_head_dropWhile :
    ∀ (l : List Char) (a : Char) (t : List Char),
      l.dropWhile isSep = a :: t → isSep a = false
  | [], a, t, h => by simp at h
  | x :: xs, a, t, h => by
    rw [List.dropWhile_cons] at h
    by_cases hx : isSep x = true
    · rw [if_pos hx] at h
      exact isSep_head_dropWhile xs a t h
    · rw [if_neg hx] at h
      injection h with h1 _
      rw [← h1]
      exact Bool.eq_false_iff.mpr hx

/-- The element at the length of the separator prefix is the first
character that `dropWhile` keeps. -/
lemma getElem_at_takeWhile_length (p : Char → Bool) (s : List Char)
    (a : Char) (l : List Char) (hd : s.dropWhile p = a :: l) :
    ∀ k, (s.takeWhile p).length = k → s[k]? = some a := by
  intro k hk
  conv_lhs => rw [← List.takeWhile_append_dropWhile p s, hd]
  rw [List.getElem?_append_right (le_of_eq hk)]
  have h0 : k - (s.takeWhile p).length = 0 := by omega
  rw [h0]
  simp

/-- Claim C6: the separator set is exactly space, tab, carriage return,
newline, non-breaking space, period, hyphen, en-dash, em-dash, colon and
comma; and the actual symbol is computed from position `e` (immediately
after the matched term) by skipping exactly the separator characters — all
characters strictly before the stopping index `j` are separators — and
taking the single character at `j` when one exists and is a non-separator,
or the empty string when the text ends first (only separators remained). -/
theorem C6_actual_symbol_separator_skipping (text : List Char) (e : Nat) :
    sepChars = [' ', '\t', '\r', '\n', ' ', '.', '-', '–', '—', ':', ',']
    ∧ ∃ j, e ≤ j
      ∧ (∀ i, e ≤ i → i < j → ∃ ch, text[i]? = some ch ∧ isSep ch = true)
      ∧ ((text.length ≤ j ∧ actual_symbol text e = [])
         ∨ (∃ ch, text[j]? = some ch ∧ isSep ch = false
             ∧ actual_symbol text e = [ch])) := by
  refine ⟨rfl, e + ((text.drop e).takeWhile isSep).length,
    Nat.le_add_right e _, ?_, ?_⟩
  · intro i hei hij
    have hn : i - e < ((text.drop e).takeWhile isSep).length := by omega
    have h1 : text[i]? = (text.drop e)[i - e]? := by
      rw [List.getElem?_drop]
      congr 1
      omega
    have h2 : (text.drop e)[i - e]? = ((text.drop e).takeWhile isSep)[i - e]? := by
      conv_lhs => rw [← List.takeWhile_append_dropWhile isSep (text.drop e)]
      exact List.getElem?_append_left hn
    have h3 : ((text.drop e).takeWhile isSep)[i - e]?
        = some (((text.drop e).takeWhile isSep)[i - e]) :=
      List.getElem?_eq_getElem hn
    refine ⟨((text.drop e).takeWhile isSep)[i - e], by rw [h1, h2, h3], ?_⟩
    exact List.mem_takeWhile_imp (List.getElem?_mem h3)
  · cases hd : (text.drop e).dropWhile isSep with
    | nil =>
      left
      constructor
      · have ht : (text.drop e).takeWhile isSep = text.drop e := by
          conv_rhs => rw [← List.takeWhile_append_dropWhile isSep (text.drop e)]
          rw [hd, List.append_nil]
        rw [ht, List.length_drop]
        omega
      · rw [actual_symbol, hd]
    | cons a l =>
      right
      refine ⟨a, ?_, isSep_head_dropWhile _ a l hd, by rw [actual_symbol, hd]⟩
      have h1 : text[e + ((text.drop e).takeWhile isSep).length]?
          = (text.drop e)[((text.drop e).takeWhile isSep).length]? := by
        rw [List.getElem?_drop]
      rw [h1, getElem_at_takeWhile_length isSep (text.drop e) a l hd _ rfl]

end Audit
